import Mathlib

/-!
A shallow embedding of the RustyFungus Befunge interpreter core
(`src/program.rs` and `src/token.rs`), together with theorems checking the
specified behaviour of the grid model, the pointer state machine, the stack
machine and the self-modification operations.

Modelling conventions:
* Rust `i32` stack values are modelled as `Int` with the `i32` semantics
  made explicit where they depart from unbounded arithmetic.  `+`, `-` and
  `*` reduce their result into `i32` range two's-complement (`wrap32`), the
  behaviour without overflow checks; a build with overflow checks instead
  panics at exactly the inputs where `wrap32` departs from the mathematical
  value, so theorems meant to hold in every build profile restrict to
  in-range results.  `b / a` and `b % a` truncate toward zero (`Int.tdiv` /
  `Int.tmod`) and trap — in every build profile — on a zero divisor and on
  `b = -2^31, a = -1` (whose quotient overflows `i32`); `i32_to_char` casts
  through `u32`, reinterpreting the two's-complement bits.
* A Rust `panic!` (including `Option::unwrap` on `None`, a division or
  remainder by zero, and an out-of-bounds `Vec` index) is modelled by the
  operation returning `none`.
* The Rust stack is a `Vec` with its top at the end; it is modelled as a
  `List Int` with the top at the head.
* The `InputReader` trait object and `rand::random()` are modelled as oracle
  streams carried inside the state: `read_int` / `read_char` take the head of
  their stream (the `StdinInputReader` returns `0` at end of input, hence the
  `0` default), and `Token.Random` takes the head of a direction stream.
-/

namespace RustyFungus

/-- The `Token` enum of `src/token.rs`.  `ReadInt` and `ReadChar` are matched
by `perform_action` in `src/program.rs` although the character table gives
them no character.  The `u8` payload of `Int` is modelled as `Nat`, reduced
mod 256 where the source does `u8` arithmetic on it. -/
inductive Token where
  | Add
  | Subtract
  | Multiply
  | Divide
  | Modulo
  | Not
  | Greater
  | Right
  | Left
  | Up
  | Down
  | Random
  | HorizontalIf
  | VerticalIf
  | StringMode
  | Duplicate
  | Swap
  | Discard
  | PrintInt
  | PrintChar
  | Bridge
  | Get
  | Put
  | ReadInt
  | ReadChar
  | Quit
  | Int (value : Nat)
  | Noop
  | Char (value : Char)
deriving DecidableEq, Repr

/-- The four cardinal directions (`Direction` as used by `src/program.rs`;
the enum itself lives next to the historical snapshot in `main.rs`). -/
inductive Direction where
  | Up
  | Down
  | Right
  | Left
deriving DecidableEq, Repr

/-- The `CHAR_TOKEN_MAP` bidirectional table of `src/token.rs`, as the list
of pairs it is built from. -/
def charTokenPairs : List (Char × Token) :=
  [ ('+', Token.Add),
    ('-', Token.Subtract),
    ('*', Token.Multiply),
    ('/', Token.Divide),
    ('%', Token.Modulo),
    ('!', Token.Not),
    (Char.ofNat 96, Token.Greater),
    ('>', Token.Right),
    ('<', Token.Left),
    ('^', Token.Up),
    ('v', Token.Down),
    ('?', Token.Random),
    ('_', Token.HorizontalIf),
    ('|', Token.VerticalIf),
    ('\"', Token.StringMode),
    (':', Token.Duplicate),
    ('\\', Token.Swap),
    ('$', Token.Discard),
    ('.', Token.PrintInt),
    (',', Token.PrintChar),
    ('#', Token.Bridge),
    ('g', Token.Get),
    ('p', Token.Put),
    ('@', Token.Quit),
    (' ', Token.Noop) ]

/-- `CHAR_TOKEN_MAP.get_by_left`: first token paired with character `c`. -/
def findByLeft (c : Char) : List (Char × Token) → Option Token
  | [] => none
  | (c', t) :: rest => if c = c' then some t else findByLeft c rest

/-- `CHAR_TOKEN_MAP.get_by_right`: first character paired with token `t`. -/
def findByRight (t : Token) : List (Char × Token) → Option Char
  | [] => none
  | (c, t') :: rest => if t = t' then some c else findByRight t rest

/-- `char_to_token` of `src/token.rs`.  The Rust range pattern `'0'..='9'`
is the code-point test `48 ≤ c ≤ 57`, and `to_digit(10)` is `c - 48`. -/
def char_to_token (c : Char) : Token :=
  if 48 ≤ c.toNat ∧ c.toNat ≤ 57 then Token.Int (c.toNat - 48)
  else
    match findByLeft c charTokenPairs with
    | some t => t
    | none => Token.Char c

/-- `token_to_char` of `src/token.rs`.  The table lookup is `unwrap`ped in
the source, so a token outside the table (`ReadInt`, `ReadChar`) is a panic,
modelled by `none`. -/
def token_to_char (t : Token) : Option Char :=
  match t with
  | Token.Int v => some (Char.ofNat ((v + 48) % 256))
  | Token.Char c => some c
  | t => findByRight t charTokenPairs

/-- `i32_to_char` of `src/program.rs`: `char::from_u32(value as u32)`,
`unwrap`ped by the callers.  `value as u32` reinterprets the two's-complement
bits, hence the reduction mod `2^32`; `char::from_u32` rejects surrogates and
values above `0x10FFFF`, which is exactly `Nat.isValidChar`. -/
def i32_to_char (value : Int) : Option Char :=
  let u := (value % 4294967296).toNat
  if Nat.isValidChar u then some (Char.ofNat u) else none

/-- Reduction of an integer into `i32` range by two's complement: the value
of an `i32` addition, subtraction or multiplication when overflow checks are
off.  With overflow checks on, Rust panics at exactly the inputs where this
departs from the mathematical result. -/
def wrap32 (n : Int) : Int :=
  (n + 2147483648) % 4294967296 - 2147483648

/-- `increment_wrap` of `src/program.rs`. -/
def increment_wrap (value max_value : Int) : Int :=
  if value = max_value - 1 then 0 else value + 1

/-- `decrement_wrap` of `src/program.rs`. -/
def decrement_wrap (value max_value : Int) : Int :=
  if value = 0 then max_value - 1 else value - 1

/-- The `Program` struct of `src/program.rs`.  The final three fields are
the oracle streams standing in for the `InputReader` trait object and for
`rand::random()`. -/
structure Program where
  xptr : Int
  yptr : Int
  direction : Direction
  grid : List (List Token)
  stack : List Int
  is_running : Bool
  string_mode : Bool
  width : Int
  last_output : String
  inputInts : List Int
  inputChars : List Int
  randomDirs : List Direction
deriving DecidableEq, Repr

/-- `Program::new`: pointer at the origin heading `Right`, empty stack, the
parsed rows kept as they are, and `width` the maximum row length (`0` for no
rows, from `max().unwrap_or(0)`). -/
def Program.new (parsed_contents : List (List Token))
    (ints chars : List Int) (rands : List Direction) : Program :=
  { xptr := 0
    yptr := 0
    direction := Direction.Right
    grid := parsed_contents
    stack := []
    is_running := true
    string_mode := false
    width := Int.ofNat ((parsed_contents.map List.length).foldl max 0)
    last_output := ""
    inputInts := ints
    inputChars := chars
    randomDirs := rands }

/-- `Program::stack_pop` on the stack list: `0` when empty. -/
def stack_pop (s : List Int) : Int × List Int :=
  match s with
  | [] => (0, [])
  | v :: rest => (v, rest)

/-- `Program::stack_peek`: `0` when empty. -/
def stack_peek (s : List Int) : Int :=
  match s with
  | [] => 0
  | v :: _ => v

/-- `Program::height`. -/
def Program.height (p : Program) : Int :=
  Int.ofNat p.grid.length

/-- `InputReader::read_int` as consumption of the integer oracle stream. -/
def read_int (p : Program) : Int × Program :=
  match p.inputInts with
  | [] => (0, p)
  | v :: rest => (v, { p with inputInts := rest })

/-- `InputReader::read_char` as consumption of the character oracle stream. -/
def read_char (p : Program) : Int × Program :=
  match p.inputChars with
  | [] => (0, p)
  | v :: rest => (v, { p with inputChars := rest })

/-- `rand::random::<Direction>()` as consumption of the direction oracle. -/
def random_direction (p : Program) : Direction × Program :=
  match p.randomDirs with
  | [] => (Direction.Right, p)
  | d :: rest => (d, { p with randomDirs := rest })

/-- `Program::get_token`: `none` outside `[0,width) × [0,height)`, otherwise
the stored token, with `Noop` standing in for positions a row never reached. -/
def get_token (p : Program) (x y : Int) : Option Token :=
  if x < 0 ∨ y < 0 ∨ p.width ≤ x ∨ p.height ≤ y then none
  else
    some (match p.grid.get? y.toNat with
      | some row =>
        match row.get? x.toNat with
        | some t => t
        | none => Token.Noop
      | none => Token.Noop)

/-- The row-growing loop of `Program::set_token`: push empty rows until the
grid has a row at index `y`. -/
def growHeight (grid : List (List Token)) (y : Nat) : List (List Token) :=
  grid ++ List.replicate (y + 1 - grid.length) []

/-- The cell-growing loop of `Program::set_token`: pad the row with `Noop`
until it has a cell at index `x`. -/
def growRow (row : List Token) (x : Nat) : List Token :=
  row ++ List.replicate (x + 1 - row.length) Token.Noop

/-- `Program::set_token`: panics (`none`) on a negative coordinate, sets
`width` to `x` whenever `x > width`, grows the grid downward with empty rows
and the target row rightward with `Noop`, then stores the token. -/
def set_token (p : Program) (x y : Int) (token : Token) : Option Program :=
  if x < 0 ∨ y < 0 then none
  else
    let w := if x > p.width then x else p.width
    let xn := x.toNat
    let yn := y.toNat
    let g1 := growHeight p.grid yn
    let row := growRow ((g1.get? yn).getD []) xn
    some { p with width := w, grid := g1.set yn (row.set xn token) }

/-- `Program::move_program_pointer`.  The source indexes
`grid[yptr as usize]` unconditionally, so a negative `yptr` (huge after the
`usize` cast) or a `yptr` at or beyond the number of rows is a panic. -/
def move_program_pointer (p : Program) : Option Program :=
  if p.yptr < 0 then none
  else
    match p.grid.get? p.yptr.toNat with
    | none => none
    | some row =>
      let max_y := Int.ofNat p.grid.length
      let max_x := Int.ofNat row.length
      some (match p.direction with
        | Direction.Up => { p with yptr := decrement_wrap p.yptr max_y }
        | Direction.Down => { p with yptr := increment_wrap p.yptr max_y }
        | Direction.Left => { p with xptr := decrement_wrap p.xptr max_x }
        | Direction.Right => { p with xptr := increment_wrap p.xptr max_x })

/-- `Program::binary_stack_op_push`. -/
def binary_stack_op_push (p : Program) (op : Int → Int → Int) : Program :=
  let (a, s1) := stack_pop p.stack
  let (b, s2) := stack_pop s1
  { p with stack := op a b :: s2 }

/-- `Program::perform_action` of `src/program.rs`.  The `i32` arithmetic of
the `Add`/`Subtract`/`Multiply` closures is wrapped by `wrap32` (see the
header note on build profiles).  `none` models the panics reachable here:
`/` or `%` overflow at `b = -2^31, a = -1` and `%` with zero divisor (panics
in every build profile), an invalid code point under `PrintChar` or `Put`,
a negative coordinate under `Put`, a token with no character under `Get`,
and a bad pointer row under `Bridge`. -/
def perform_action (p : Program) (action : Token) : Option Program :=
  match action with
  | Token.Add => some (binary_stack_op_push p (fun a b => wrap32 (a + b)))
  | Token.Subtract => some (binary_stack_op_push p (fun a b => wrap32 (b - a)))
  | Token.Multiply => some (binary_stack_op_push p (fun a b => wrap32 (a * b)))
  | Token.Divide =>
    let (a, s1) := stack_pop p.stack
    let (b, s2) := stack_pop s1
    if a = 0 then
      let (v, p') := read_int p
      some { p' with stack := v :: s2 }
    else if b = -2147483648 ∧ a = -1 then none
    else some { p with stack := Int.tdiv b a :: s2 }
  | Token.Modulo =>
    let (a, s1) := stack_pop p.stack
    let (b, s2) := stack_pop s1
    if a = 0 ∨ (b = -2147483648 ∧ a = -1) then none
    else some { p with stack := Int.tmod b a :: s2 }
  | Token.Not =>
    let (v, s1) := stack_pop p.stack
    some { p with stack := (if v = 0 then 1 else 0) :: s1 }
  | Token.Greater =>
    some (binary_stack_op_push p (fun a b => if b > a then 1 else 0))
  | Token.Right => some { p with direction := Direction.Right }
  | Token.Left => some { p with direction := Direction.Left }
  | Token.Up => some { p with direction := Direction.Up }
  | Token.Down => some { p with direction := Direction.Down }
  | Token.Random =>
    let (d, p') := random_direction p
    some { p' with direction := d }
  | Token.HorizontalIf =>
    let (v, s1) := stack_pop p.stack
    some { p with stack := s1,
                  direction := if v = 0 then Direction.Right else Direction.Left }
  | Token.VerticalIf =>
    let (v, s1) := stack_pop p.stack
    some { p with stack := s1,
                  direction := if v = 0 then Direction.Down else Direction.Up }
  | Token.StringMode => some { p with string_mode := true }
  | Token.Duplicate => some { p with stack := stack_peek p.stack :: p.stack }
  | Token.Swap =>
    let (top, s1) := stack_pop p.stack
    let (bottom, s2) := stack_pop s1
    some { p with stack := bottom :: top :: s2 }
  | Token.Discard =>
    let (_, s1) := stack_pop p.stack
    some { p with stack := s1 }
  | Token.PrintInt =>
    let (v, s1) := stack_pop p.stack
    some { p with stack := s1, last_output := toString v ++ " " }
  | Token.PrintChar =>
    let (v, s1) := stack_pop p.stack
    match i32_to_char v with
    | some c => some { p with stack := s1, last_output := String.mk [c] }
    | none => none
  | Token.Bridge => move_program_pointer p
  | Token.Get =>
    let (y, s1) := stack_pop p.stack
    let (x, s2) := stack_pop s1
    match get_token p x y with
    | some t =>
      match token_to_char t with
      | some c => some { p with stack := Int.ofNat c.toNat :: s2 }
      | none => none
    | none => some { p with stack := 0 :: s2 }
  | Token.Put =>
    let (y, s1) := stack_pop p.stack
    let (x, s2) := stack_pop s1
    let (v, s3) := stack_pop s2
    match i32_to_char v with
    | some c => set_token { p with stack := s3 } x y (char_to_token c)
    | none => none
  | Token.ReadInt =>
    let (v, p') := read_int p
    some { p' with stack := v :: p'.stack }
  | Token.ReadChar =>
    let (v, p') := read_char p
    some { p' with stack := v :: p'.stack }
  | Token.Quit => some { p with is_running := false }
  | Token.Int value => some { p with stack := Int.ofNat value :: p.stack }
  | Token.Noop => some p
  | Token.Char _ => some p

/-- `Program::perform_string_action`: leave string mode on `StringMode`,
otherwise push the token's character code (`unwrap`ped in the source, so a
token with no character is a panic, modelled by `none`). -/
def perform_string_action (p : Program) (action : Token) : Option Program :=
  match action with
  | Token.StringMode => some { p with string_mode := false }
  | Token.Char value => some { p with stack := Int.ofNat value.toNat :: p.stack }
  | t =>
    match token_to_char t with
    | some c => some { p with stack := Int.ofNat c.toNat :: p.stack }
    | none => none

/-- `Program::step`: clear `last_output`, `unwrap` the token under the
pointer, dispatch on the mode, then advance the pointer. -/
def step (p : Program) : Option Program :=
  let p := { p with last_output := "" }
  match get_token p p.xptr p.yptr with
  | none => none
  | some t =>
    match (if p.string_mode then perform_string_action p t else perform_action p t) with
    | none => none
    | some p' => move_program_pointer p'

/-- `lines_to_token_matrix`: one row per line, one token per character. -/
def linesToTokenMatrix (lines : List String) : List (List Token) :=
  lines.map (fun line => line.data.map char_to_token)

/-- Run `n` steps, concatenating the `last_output` of each step (what the
driver loop prints); `none` as soon as a step panics. -/
def runOutput : Nat → Program → Option (Program × String)
  | 0, p => some (p, "")
  | n + 1, p =>
    match step p with
    | none => none
    | some p' =>
      match runOutput n p' with
      | none => none
      | some (q, out) => some (q, p'.last_output ++ out)

/-- Grid and pointer state for the C1 experiment: a parsed one-cell program
(`width` 1) about to execute `Put` with `y = 0`, `x = 1`, `v = 65` on the
stack. -/
def c1Program : Program :=
  { xptr := 0, yptr := 0, direction := Direction.Right, grid := [[Token.Noop]],
    stack := [0, 1, 65], is_running := true, string_mode := false, width := 1,
    last_output := "", inputInts := [], inputChars := [], randomDirs := [] }

/-- Rows parsed from a two-line program whose lines have different lengths. -/
def c2Parsed : List (List Token) :=
  [[Token.Noop, Token.Noop], [Token.Noop]]

/-- A state whose pointer column lies beyond the current row's length (the
row has length 1, the pointer is at column 1), heading `Right`. -/
def c3Program : Program :=
  { xptr := 1, yptr := 0, direction := Direction.Right, grid := [[Token.Noop]],
    stack := [], is_running := true, string_mode := false, width := 1,
    last_output := "", inputInts := [], inputChars := [], randomDirs := [] }

/-- A well-placed pointer for instantiating the amended C3 statement. -/
def c3WitnessProgram : Program :=
  { xptr := 0, yptr := 0, direction := Direction.Right, grid := [[Token.Noop]],
    stack := [], is_running := true, string_mode := false, width := 1,
    last_output := "", inputInts := [], inputChars := [], randomDirs := [] }

/-- `Divide` about to pop divisor `0` (then `7`), with `42` waiting on the
integer input stream. -/
def c4ProgramZero : Program :=
  { xptr := 0, yptr := 0, direction := Direction.Right, grid := [[Token.Divide]],
    stack := [0, 7], is_running := true, string_mode := false, width := 1,
    last_output := "", inputInts := [42], inputChars := [], randomDirs := [] }

/-- `Divide` about to pop divisor `2` (then `7`). -/
def c4ProgramNonzero : Program :=
  { xptr := 0, yptr := 0, direction := Direction.Right, grid := [[Token.Divide]],
    stack := [2, 7], is_running := true, string_mode := false, width := 1,
    last_output := "", inputInts := [], inputChars := [], randomDirs := [] }

/-- `Divide` about to pop divisor `-1` (then `-2^31`), whose quotient
`2^31` does not fit in `i32`; an integer is queued on the input stream to
show the trap is not redirected there. -/
def c4OverflowProgram : Program :=
  { xptr := 0, yptr := 0, direction := Direction.Right, grid := [[Token.Divide]],
    stack := [-1, -2147483648], is_running := true, string_mode := false, width := 1,
    last_output := "", inputInts := [7], inputChars := [], randomDirs := [] }

/-- `Subtract` about to pop `1` (then `-2^31`), whose mathematical
difference `-2^31 - 1` does not fit in `i32`. -/
def c5OverflowProgram : Program :=
  { xptr := 0, yptr := 0, direction := Direction.Right, grid := [[Token.Subtract]],
    stack := [1, -2147483648], is_running := true, string_mode := false, width := 1,
    last_output := "", inputInts := [], inputChars := [], randomDirs := [] }

/-- A state with divisor `2` below `7` below `5` for the operator-order
theorem. -/
def c5Program : Program :=
  { xptr := 0, yptr := 0, direction := Direction.Right, grid := [[Token.Noop]],
    stack := [2, 7, 5], is_running := true, string_mode := false, width := 1,
    last_output := "", inputInts := [], inputChars := [], randomDirs := [] }

/-- A state in string mode whose pointer sits on the `Add` token (drawn as
the character `+`). -/
def c6WitnessProgram : Program :=
  { xptr := 0, yptr := 0, direction := Direction.Right, grid := [[Token.Add]],
    stack := [], is_running := true, string_mode := true, width := 1,
    last_output := "", inputInts := [], inputChars := [], randomDirs := [] }

/-- A state with an empty stack. -/
def c7Program : Program :=
  { xptr := 0, yptr := 0, direction := Direction.Right, grid := [[Token.Noop]],
    stack := [], is_running := true, string_mode := false, width := 1,
    last_output := "", inputInts := [], inputChars := [], randomDirs := [] }

/-- A state with an empty stack about to execute `Modulo`: both operands
default to `0`. -/
def c9Program : Program :=
  { xptr := 0, yptr := 0, direction := Direction.Right, grid := [[Token.Modulo]],
    stack := [], is_running := true, string_mode := false, width := 1,
    last_output := "", inputInts := [5], inputChars := [5], randomDirs := [] }

/-- C1: the spec asserts that `Put(x,y,v)` followed by `Get` at the same
`(x,y)` pushes the code of the character `v` denotes.  The code violates
this whenever `x` is at or beyond the current width: `set_token` sets
`width` to `x` instead of `x + 1` (and does not grow it at all when
`x = width`), so `get_token` still reports the freshly written cell as out
of bounds and `Get` pushes `0`.  Here: on a `width`-1 grid, `Put` with
`y = 0`, `x = 1`, `v = 65` stores `Char 'A'` in the grid, yet the following
`Get` with `y = 0`, `x = 1` pushes `0`, not `65`. -/
theorem c1_put_then_get_reads_zero :
    (perform_action c1Program Token.Put).map Program.grid
        = some [[Token.Noop, Token.Char 'A']] ∧
    (perform_action c1Program Token.Put).map Program.width = some 1 ∧
    ((perform_action c1Program Token.Put).bind (fun p1 =>
        perform_action { p1 with stack := [0, 1] } Token.Get)).map Program.stack
        = some [0] := by
  refine ⟨rfl, rfl, rfl⟩

/-- C7: popping the empty stack yields `0` and leaves the stack empty;
`Duplicate` peeks `0` and `Swap` fills both missing values with `0`, so
underflow is recoverable everywhere (`Discard` on the empty stack is a
no-op). -/
theorem c7_empty_stack_underflow (p : Program) (h : p.stack = []) :
    stack_pop p.stack = (0, []) ∧
    stack_peek p.stack = 0 ∧
    perform_action p Token.Swap = some { p with stack := [0, 0] } ∧
    perform_action p Token.Duplicate = some { p with stack := [0] } ∧
    perform_action p Token.Discard = some p := by
  obtain ⟨xw, yw, dir, grid, stk, run, sm, w, lo, ii, ic, rd⟩ := p
  simp only at h
  subst h
  exact ⟨rfl, rfl, rfl, rfl, rfl⟩

/-- C7 witness: the general underflow theorem applied to a concrete state
with an empty stack. -/
theorem c7_empty_stack_underflow_witness :
    stack_pop c7Program.stack = (0, []) ∧
    stack_peek c7Program.stack = 0 ∧
    perform_action c7Program Token.Swap = some { c7Program with stack := [0, 0] } ∧
    perform_action c7Program Token.Duplicate = some { c7Program with stack := [0] } ∧
    perform_action c7Program Token.Discard = some c7Program :=
  c7_empty_stack_underflow c7Program rfl

/-- C9: unlike `Divide`, `Modulo` has no zero-divisor escape: whenever the
first-popped value is `0` (in particular on an empty stack, where both pops
default to `0`), `b % a` traps, regardless of the input streams; and the
trap is reachable, e.g. on the one-token program `%`. -/
theorem c9_modulo_zero_panics (p : Program)
    (h : p.stack = [] ∨ ∃ rest, p.stack = 0 :: rest) :
    perform_action p Token.Modulo = none ∧
    step (Program.new [[Token.Modulo]] [] [] []) = none := by
  refine ⟨?_, rfl⟩
  obtain ⟨xw, yw, dir, grid, stk, run, sm, w, lo, ii, ic, rd⟩ := p
  simp only at h
  rcases h with h | ⟨rest, h⟩ <;> subst h <;> rfl

/-- C9 witness: the zero-divisor trap at a concrete state with an empty
stack (and non-empty input streams, showing no input substitution occurs). -/
theorem c9_modulo_zero_panics_witness :
    perform_action c9Program Token.Modulo = none ∧
    step (Program.new [[Token.Modulo]] [] [] []) = none :=
  c9_modulo_zero_panics c9Program (Or.inl rfl)

/-- C10: constructed from program text with zero rows, the interpreter's
first `step` panics: the token under the pointer is `None` and gets
`unwrap`ped, and `move_program_pointer` indexes row `0` of an empty grid. -/
theorem c10_empty_grid_step_panics :
    get_token (Program.new [] [] [] []) 0 0 = none ∧
    step (Program.new [] [] [] []) = none ∧
    move_program_pointer (Program.new [] [] [] []) = none := by
  exact ⟨rfl, rfl, rfl⟩

/-- C4 counterexample: `Divide` with a nonzero divisor does not always push
the truncating quotient — at `second = -2^31`, `first = -1` the quotient
`2^31` overflows `i32` and Rust's division panics in every build profile,
so the step traps instead of pushing (the queued input `7` is not consulted
either). -/
theorem c4_divide_overflow_traps :
    perform_action c4OverflowProgram Token.Divide = none ∧
    Int.tdiv (-2147483648) (-1) = 2147483648 := by
  exact ⟨rfl, rfl⟩

/-- C4 (amended): with divisor `0` (the first-popped value) `Divide` does
not trap arithmetically: it pushes the next value of the integer input
stream, consuming it; with a nonzero divisor it pushes the truncating
quotient `second / first`, except at `second = -2^31, first = -1`, where
the quotient overflows `i32` and the division traps. -/
theorem c4_divide_zero_reads_input (p : Program) (a b : Int) (rest : List Int)
    (h : p.stack = a :: b :: rest) :
    (a = 0 → perform_action p Token.Divide
        = some { (read_int p).2 with stack := (read_int p).1 :: rest }) ∧
    (a ≠ 0 → ¬(b = -2147483648 ∧ a = -1) → perform_action p Token.Divide
        = some { p with stack := Int.tdiv b a :: rest }) := by
  obtain ⟨xw, yw, dir, grid, stk, run, sm, w, lo, ii, ic, rd⟩ := p
  simp only at h
  subst h
  constructor
  · intro ha
    simp only [perform_action, stack_pop, ha, if_pos]
  · intro ha hov
    simp only [perform_action, stack_pop, if_neg ha, if_neg hov]

/-- C4 witness: the amended divide theorem at two concrete states, one with
divisor `0` (the queued input `42` is pushed and consumed) and one with
divisor `2` (`7 / 2` truncates to `3`). -/
theorem c4_divide_zero_reads_input_witness :
    perform_action c4ProgramZero Token.Divide
      = some { c4ProgramZero with stack := [42], inputInts := [] } ∧
    perform_action c4ProgramNonzero Token.Divide
      = some { c4ProgramNonzero with stack := [3] } := by
  constructor
  · rw [(c4_divide_zero_reads_input c4ProgramZero 0 7 [] rfl).1 rfl]
    rfl
  · rw [(c4_divide_zero_reads_input c4ProgramNonzero 2 7 [] rfl).2
      (by decide) (by decide)]
    rfl

/-- `wrap32` is the identity on values already in `i32` range — the inputs
on which checked and unchecked `i32` arithmetic agree. -/
theorem wrap32_eq_self (n : Int) (h1 : -2147483648 ≤ n) (h2 : n < 2147483648) :
    wrap32 n = n := by
  unfold wrap32
  omega

/-- C5 counterexample: `Subtract` does not push `second - first` on every
two-element stack — at `second = -2^31`, `first = 1` the difference
`-2^31 - 1` does not fit in `i32`, so the `i32` subtraction never produces
it (it wraps to `2^31 - 1` without overflow checks, and panics with them). -/
theorem c5_subtract_overflow_wraps :
    (perform_action c5OverflowProgram Token.Subtract).map Program.stack
        ≠ some [(-2147483648 : Int) - 1] ∧
    (perform_action c5OverflowProgram Token.Subtract).map Program.stack
        = some [2147483647] := by
  exact ⟨by decide, rfl⟩

/-- C5 (amended): with `a` the first-popped and `b` the second-popped value,
the binary operators compute with the second-popped below the first-popped:
`Subtract` pushes `b - a` whenever that difference fits in `i32` (otherwise
the `i32` subtraction overflows), `Divide` and `Modulo` push the truncating
quotient `b / a` and remainder `b % a` for a nonzero divisor away from the
overflowing pair `(-2^31, -1)` (cf. C4 and C9), `Greater` pushes `1` iff
`b > a`, `Add` and `Multiply` push `a + b` and `a * b` when in range and
are commutative even when wrapped; consequently the parsed program `1 2-.`
emits `-1 ` after its five tokens have executed. -/
theorem c5_operand_order_in_range (p : Program) (a b : Int) (rest : List Int)
    (h : p.stack = a :: b :: rest) :
    (-2147483648 ≤ b - a → b - a < 2147483648 →
       perform_action p Token.Subtract = some { p with stack := (b - a) :: rest }) ∧
    (a ≠ 0 → ¬(b = -2147483648 ∧ a = -1) → perform_action p Token.Divide
        = some { p with stack := Int.tdiv b a :: rest }) ∧
    (a ≠ 0 → ¬(b = -2147483648 ∧ a = -1) → perform_action p Token.Modulo
        = some { p with stack := Int.tmod b a :: rest }) ∧
    perform_action p Token.Greater
        = some { p with stack := (if b > a then (1 : Int) else 0) :: rest } ∧
    (-2147483648 ≤ a + b → a + b < 2147483648 →
       perform_action p Token.Add = some { p with stack := (a + b) :: rest }) ∧
    (-2147483648 ≤ a * b → a * b < 2147483648 →
       perform_action p Token.Multiply = some { p with stack := (a * b) :: rest }) ∧
    wrap32 (a + b) = wrap32 (b + a) ∧ wrap32 (a * b) = wrap32 (b * a) ∧
    (runOutput 5 (Program.new (linesToTokenMatrix ["1 2-."]) [] [] [])).map Prod.snd
      = some "-1 " := by
  obtain ⟨xw, yw, dir, grid, stk, run, sm, w, lo, ii, ic, rd⟩ := p
  simp only at h
  subst h
  refine ⟨?_, ?_, ?_, rfl, ?_, ?_, congrArg wrap32 (add_comm a b),
    congrArg wrap32 (mul_comm a b), by decide⟩
  · intro h1 h2
    simp only [perform_action, binary_stack_op_push, stack_pop]
    rw [wrap32_eq_self (b - a) h1 h2]
  · intro ha hov
    simp only [perform_action, stack_pop, if_neg ha, if_neg hov]
  · intro ha hov
    have hc : ¬(a = 0 ∨ (b = -2147483648 ∧ a = -1)) := by
      intro hd
      rcases hd with hd | hd
      · exact ha hd
      · exact hov hd
    simp only [perform_action, stack_pop, if_neg hc]
  · intro h1 h2
    simp only [perform_action, binary_stack_op_push, stack_pop]
    rw [wrap32_eq_self (a + b) h1 h2]
  · intro h1 h2
    simp only [perform_action, binary_stack_op_push, stack_pop]
    rw [wrap32_eq_self (a * b) h1 h2]

/-- C5 witness: the operand-order theorem at the concrete stack
`[2, 7, 5]` (`a = 2` on top, `b = 7` below), every result in range. -/
theorem c5_operand_order_in_range_witness :
    perform_action c5Program Token.Subtract = some { c5Program with stack := [5, 5] } ∧
    perform_action c5Program Token.Divide = some { c5Program with stack := [3, 5] } ∧
    perform_action c5Program Token.Modulo = some { c5Program with stack := [1, 5] } ∧
    perform_action c5Program Token.Greater = some { c5Program with stack := [1, 5] } ∧
    perform_action c5Program Token.Add = some { c5Program with stack := [9, 5] } ∧
    perform_action c5Program Token.Multiply = some { c5Program with stack := [14, 5] } ∧
    (runOutput 5 (Program.new (linesToTokenMatrix ["1 2-."]) [] [] [])).map Prod.snd
      = some "-1 " := by
  have h := c5_operand_order_in_range c5Program 2 7 [5] rfl
  exact ⟨h.1 (by decide) (by decide), h.2.1 (by decide) (by decide),
    h.2.2.1 (by decide) (by decide), h.2.2.2.1, h.2.2.2.2.1 (by decide) (by decide),
    h.2.2.2.2.2.1 (by decide) (by decide), h.2.2.2.2.2.2.2.2⟩

/-- `increment_wrap` agrees with modular arithmetic exactly when the value
already lies in `[0, max_value)`. -/
theorem increment_wrap_eq_emod (v m : Int) (h0 : 0 ≤ v) (hm : v < m) :
    increment_wrap v m = (v + 1) % m := by
  unfold increment_wrap
  by_cases hv : v = m - 1
  · rw [if_pos hv, hv, sub_add_cancel, Int.emod_self]
  · rw [if_neg hv, Int.emod_eq_of_lt (by omega) (by omega)]

/-- `decrement_wrap` agrees with modular arithmetic exactly when the value
already lies in `[0, max_value)`. -/
theorem decrement_wrap_eq_emod (v m : Int) (h0 : 0 ≤ v) (hm : v < m) :
    decrement_wrap v m = (v - 1 + m) % m := by
  unfold decrement_wrap
  have hmod : (v - 1 + m) % m = (v - 1) % m := by
    have h := Int.add_mul_emod_self_left (a := v - 1) (b := m) (c := 1)
    rwa [mul_one] at h
  by_cases hv : v = 0
  · rw [if_pos hv, hv, show (0 : Int) - 1 + m = m - 1 by ring,
      Int.emod_eq_of_lt (by omega) (by omega)]
  · rw [if_neg hv, hmod, Int.emod_eq_of_lt (by omega) (by omega)]

/-- C3 counterexample: the wrap rule is not `(x + 1) mod row_width` on
every state.  In the state `c3Program` the pointer column `1` lies beyond
its row of length `1` (a configuration the wrap functions are also applied
to after vertical moves into shorter rows); moving `Right` yields column
`2`, while `(1 + 1) mod 1 = 0`. -/
theorem c3_wrap_not_modular :
    (move_program_pointer c3Program).map Program.xptr = some 2 ∧
    (c3Program.xptr + 1) %
      Int.ofNat (((c3Program.grid.get? c3Program.yptr.toNat).getD []).length) = 0 := by
  exact ⟨rfl, rfl⟩

/-- C3 (amended): whenever the pointer lies within the current row
(`0 ≤ x < row_width`), moving `Right` sets `x` to `(x + 1) mod row_width`
and `Left` sets it to `(x - 1 + row_width) mod row_width`, the row left
unchanged; whenever `0 ≤ y < height`, `Down` and `Up` wrap `y` the same way
against the number of rows.  In particular the rightmost column wraps to
column `0` of the same row. -/
theorem c3_pointer_wrap_in_row (p : Program) (row : List Token)
    (hy0 : 0 ≤ p.yptr)
    (hrow : p.grid.get? p.yptr.toNat = some row) :
    (p.direction = Direction.Right → 0 ≤ p.xptr → p.xptr < Int.ofNat row.length →
       move_program_pointer p
         = some { p with xptr := (p.xptr + 1) % Int.ofNat row.length }) ∧
    (p.direction = Direction.Left → 0 ≤ p.xptr → p.xptr < Int.ofNat row.length →
       move_program_pointer p
         = some { p with xptr := (p.xptr - 1 + Int.ofNat row.length)
                                   % Int.ofNat row.length }) ∧
    (p.direction = Direction.Down → p.yptr < Int.ofNat p.grid.length →
       move_program_pointer p
         = some { p with yptr := (p.yptr + 1) % Int.ofNat p.grid.length }) ∧
    (p.direction = Direction.Up → p.yptr < Int.ofNat p.grid.length →
       move_program_pointer p
         = some { p with yptr := (p.yptr - 1 + Int.ofNat p.grid.length)
                                   % Int.ofNat p.grid.length }) := by
  unfold move_program_pointer
  rw [if_neg (not_lt.mpr hy0), hrow]
  refine ⟨?_, ?_, ?_, ?_⟩
  · intro hdir hx0 hxw
    rw [hdir, ← increment_wrap_eq_emod p.xptr (Int.ofNat row.length) hx0 hxw]
  · intro hdir hx0 hxw
    rw [hdir, ← decrement_wrap_eq_emod p.xptr (Int.ofNat row.length) hx0 hxw]
  · intro hdir hyh
    rw [hdir, ← increment_wrap_eq_emod p.yptr (Int.ofNat p.grid.length) hy0 hyh]
  · intro hdir hyh
    rw [hdir, ← decrement_wrap_eq_emod p.yptr (Int.ofNat p.grid.length) hy0 hyh]

/-- C3 witness: the amended wrap rule at a concrete in-row state — a
pointer at the rightmost (only) column of a row of width `1` moving `Right`
lands at column `(0 + 1) mod 1 = 0`. -/
theorem c3_pointer_wrap_in_row_witness :
    move_program_pointer c3WitnessProgram
      = some { c3WitnessProgram with xptr := (0 + 1) % 1 } :=
  (c3_pointer_wrap_in_row c3WitnessProgram [Token.Noop] (by decide) rfl).1
    rfl (by decide) (by decide)

/-- The seed of a `max` fold is a lower bound of the result. -/
theorem le_foldl_max (l : List Nat) (a : Nat) : a ≤ l.foldl max a := by
  induction l generalizing a with
  | nil => exact Nat.le_refl a
  | cons hd tl ih => exact le_trans (Nat.le_max_left a hd) (ih (max a hd))

/-- Every member of the list is bounded by a `max` fold over it. -/
theorem mem_le_foldl_max (l : List Nat) : ∀ (a x : Nat), x ∈ l → x ≤ l.foldl max a := by
  induction l with
  | nil => intro a x hx; cases hx
  | cons hd tl ih =>
    intro a x hx
    rw [List.foldl_cons]
    rcases List.mem_cons.mp hx with h | h
    · subst h
      exact le_trans (Nat.le_max_right a x) (le_foldl_max tl (max a x))
    · exact ih (max a hd) x h

/-- A `max` fold yields its seed or a member of the list. -/
theorem foldl_max_eq_seed_or_mem (l : List Nat) (a : Nat) :
    l.foldl max a = a ∨ l.foldl max a ∈ l := by
  induction l generalizing a with
  | nil => exact Or.inl rfl
  | cons hd tl ih =>
    rcases ih (max a hd) with h | h
    · rcases max_choice a hd with hm | hm
      · exact Or.inl (by rw [List.foldl_cons, h, hm])
      · exact Or.inr (by rw [List.foldl_cons, h, hm]; exact List.mem_cons_self hd tl)
    · exact Or.inr (List.mem_cons_of_mem hd h)

/-- C2 counterexample: grids are not physically padded.  Constructing the
interpreter from parsed rows of lengths `2` and `1` keeps the rows as they
are, so the second row's length differs from the grid width `2`. -/
theorem c2_rows_not_padded :
    ¬ ∀ row ∈ (Program.new c2Parsed [] [] []).grid,
        Int.ofNat row.length = (Program.new c2Parsed [] [] []).width := by
  decide

/-- C2 (amended): rows are not physically padded with `Noop`; instead the
padding is an illusion maintained by `get_token`.  After construction the
width is the maximum row length (every row is no longer than it, and some
row attains it when any row exists), and in every state reading any
in-bounds coordinate never fails: `get_token` is `some` there, returning
`Noop` for columns at or beyond the physical row length. -/
theorem c2_padding_is_read_side (parsed : List (List Token))
    (ints chars : List Int) (rands : List Direction) (p : Program) (x y : Int)
    (hx0 : 0 ≤ x) (hxw : x < p.width) (hy0 : 0 ≤ y) (hyh : y < p.height) :
    (∀ row ∈ (Program.new parsed ints chars rands).grid,
       Int.ofNat row.length ≤ (Program.new parsed ints chars rands).width) ∧
    (parsed ≠ [] → ∃ row ∈ (Program.new parsed ints chars rands).grid,
       Int.ofNat row.length = (Program.new parsed ints chars rands).width) ∧
    (get_token p x y).isSome = true ∧
    (∀ row, p.grid.get? y.toNat = some row → row.length ≤ x.toNat →
       get_token p x y = some Token.Noop) := by
  have hbounds : ¬(x < 0 ∨ y < 0 ∨ p.width ≤ x ∨ p.height ≤ y) := by
    push_neg
    exact ⟨hx0, hy0, hxw, hyh⟩
  refine ⟨?_, ?_, ?_, ?_⟩
  · intro row hr
    exact Int.ofNat_le.mpr
      (mem_le_foldl_max (parsed.map List.length) 0 row.length
        (List.mem_map_of_mem List.length hr))
  · intro hne
    rcases foldl_max_eq_seed_or_mem (parsed.map List.length) 0 with h0 | hmem
    · obtain ⟨r, hr⟩ := List.exists_mem_of_ne_nil parsed hne
      have hle : r.length ≤ 0 := by
        rw [← h0]
        exact mem_le_foldl_max (parsed.map List.length) 0 r.length
          (List.mem_map_of_mem List.length hr)
      refine ⟨r, hr, ?_⟩
      show Int.ofNat r.length = Int.ofNat ((parsed.map List.length).foldl max 0)
      rw [h0, Nat.le_zero.mp hle]
    · obtain ⟨r, hr, hlen⟩ := List.mem_map.mp hmem
      exact ⟨r, hr, congrArg Int.ofNat hlen⟩
  · unfold get_token
    rw [if_neg hbounds]
    rfl
  · intro row hrow hxlen
    unfold get_token
    rw [if_neg hbounds, hrow]
    show some (match row.get? x.toNat with
      | some t => t
      | none => Token.Noop) = some Token.Noop
    rw [List.get?_eq_none.mpr hxlen]

/-- C2 witness: the amended statement at the parsed rows of `c2Parsed` and,
for the read side, at the in-bounds coordinate `(1, 1)` of the constructed
interpreter, which lies beyond the second row's physical length and reads
`Noop`. -/
theorem c2_padding_is_read_side_witness :
    (∀ row ∈ (Program.new c2Parsed [] [] []).grid,
       Int.ofNat row.length ≤ (Program.new c2Parsed [] [] []).width) ∧
    (c2Parsed ≠ [] → ∃ row ∈ (Program.new c2Parsed [] [] []).grid,
       Int.ofNat row.length = (Program.new c2Parsed [] [] []).width) ∧
    (get_token (Program.new c2Parsed [] [] []) 1 1).isSome = true ∧
    (∀ row, (Program.new c2Parsed [] [] []).grid.get? (1 : Int).toNat = some row →
       row.length ≤ (1 : Int).toNat →
       get_token (Program.new c2Parsed [] [] []) 1 1 = some Token.Noop) :=
  c2_padding_is_read_side c2Parsed [] [] [] (Program.new c2Parsed [] [] []) 1 1
    (by decide) (by decide) (by decide) (by decide)

/-- A successful left lookup exhibits its pair in the table. -/
theorem findByLeft_mem : ∀ (l : List (Char × Token)) (c : Char) (t : Token),
    findByLeft c l = some t → (c, t) ∈ l := by
  intro l
  induction l with
  | nil =>
    intro c t h
    exact absurd h (by simp [findByLeft])
  | cons hd tl ih =>
    intro c t h
    obtain ⟨c', t'⟩ := hd
    simp only [findByLeft] at h
    by_cases hc : c = c'
    · rw [if_pos hc] at h
      subst hc
      rw [Option.some.injEq] at h
      subst h
      exact List.mem_cons_self _ _
    · rw [if_neg hc] at h
      exact List.mem_cons_of_mem _ (ih c t h)

/-- Every pair of the character table round-trips from token back to its
character. -/
theorem pairs_roundtrip : ∀ pr ∈ charTokenPairs, token_to_char pr.2 = some pr.1 := by
  decide

/-- C8: the character-to-token mapping is a right inverse of token
rendering: for every character `c`, `token_to_char (char_to_token c)`
yields `c` — digits through `Int`, table characters through the
bidirectional map, and every other character through the `Char` literal. -/
theorem c8_char_token_roundtrip (c : Char) :
    token_to_char (char_to_token c) = some c := by
  unfold char_to_token
  by_cases hd : 48 ≤ c.toNat ∧ c.toNat ≤ 57
  · rw [if_pos hd]
    simp only [token_to_char]
    rw [Nat.sub_add_cancel hd.1, Nat.mod_eq_of_lt (by omega), Char.ofNat_toNat]
  · rw [if_neg hd]
    cases hfind : findByLeft c charTokenPairs with
    | none =>
      rfl
    | some t =>
      show token_to_char t = some c
      exact pairs_roundtrip (c, t) (findByLeft_mem charTokenPairs c t hfind)

/-- Unfolding of `step` with the cleared `last_output` pushed inward. -/
theorem step_eq (p : Program) :
    step p =
      match get_token p p.xptr p.yptr with
      | none => none
      | some t =>
        match (if p.string_mode
               then perform_string_action { p with last_output := "" } t
               else perform_action { p with last_output := "" } t) with
        | none => none
        | some p' => move_program_pointer p' := rfl

/-- When the pointer's row exists, advancing the pointer succeeds and
changes nothing but the pointer. -/
theorem move_program_pointer_some (p : Program) (row : List Token)
    (hy0 : 0 ≤ p.yptr) (hrow : p.grid.get? p.yptr.toNat = some row) :
    ∃ q, move_program_pointer p = some q ∧ q.stack = p.stack ∧
      q.string_mode = p.string_mode := by
  unfold move_program_pointer
  rw [if_neg (not_lt.mpr hy0), hrow]
  cases hdir : p.direction
  all_goals exact ⟨_, rfl, rfl, rfl⟩

/-- `step` dispatches to `perform_string_action` while in string mode. -/
theorem step_dispatch_string (p : Program) (t : Token)
    (ht : get_token p p.xptr p.yptr = some t) (hsm : p.string_mode = true) :
    step p =
      match perform_string_action { p with last_output := "" } t with
      | none => none
      | some p' => move_program_pointer p' := by
  rw [step_eq, ht]
  show (match (if p.string_mode = true
               then perform_string_action { p with last_output := "" } t
               else perform_action { p with last_output := "" } t) with
    | none => none
    | some p' => move_program_pointer p') = _
  rw [if_pos hsm]

/-- `step` dispatches to `perform_action` outside string mode. -/
theorem step_dispatch_normal (p : Program) (t : Token)
    (ht : get_token p p.xptr p.yptr = some t) (hsm : p.string_mode = false) :
    step p =
      match perform_action { p with last_output := "" } t with
      | none => none
      | some p' => move_program_pointer p' := by
  rw [step_eq, ht]
  show (match (if p.string_mode = true
               then perform_string_action { p with last_output := "" } t
               else perform_action { p with last_output := "" } t) with
    | none => none
    | some p' => move_program_pointer p') = _
  rw [if_neg (by rw [hsm]; exact Bool.false_ne_true)]

/-- In string mode, a token carrying a character (and distinct from the
mode toggle) is pushed as that character's code. -/
theorem perform_string_action_push (p : Program) (t : Token) (c : Char)
    (hc : token_to_char t = some c) (hne : t ≠ Token.StringMode) :
    perform_string_action p t
      = some { p with stack := Int.ofNat c.toNat :: p.stack } := by
  cases t <;> simp_all [perform_string_action, token_to_char]

/-- C6: while `string_mode` is set, stepping on any token other than the
`StringMode` toggle pushes that token's character code instead of executing
it — a `Char c` literal pushes `c`'s code, and any other token carrying a
character pushes that character's code — while stepping on `StringMode`
clears the mode and pushes nothing; outside string mode, stepping on
`StringMode` sets the mode. -/
theorem c6_string_mode_semantics (p : Program) (t : Token)
    (ht : get_token p p.xptr p.yptr = some t) :
    (p.string_mode = true → t = Token.StringMode →
       ∃ q, step p = some q ∧ q.string_mode = false ∧ q.stack = p.stack) ∧
    (p.string_mode = true → ∀ c, t = Token.Char c →
       ∃ q, step p = some q ∧ q.string_mode = true ∧
         q.stack = Int.ofNat c.toNat :: p.stack) ∧
    (p.string_mode = true → t ≠ Token.StringMode → ∀ c, token_to_char t = some c →
       ∃ q, step p = some q ∧ q.string_mode = true ∧
         q.stack = Int.ofNat c.toNat :: p.stack) ∧
    (p.string_mode = false → t = Token.StringMode →
       ∃ q, step p = some q ∧ q.string_mode = true ∧ q.stack = p.stack) := by
  have hcond : ¬(p.xptr < 0 ∨ p.yptr < 0 ∨ p.width ≤ p.xptr ∨ p.height ≤ p.yptr) := by
    intro hc
    unfold get_token at ht
    rw [if_pos hc] at ht
    cases ht
  push_neg at hcond
  obtain ⟨hx0, hy0, hxw, hyh⟩ := hcond
  have hylen : p.yptr.toNat < p.grid.length := by
    have h2 : p.yptr < (p.grid.length : Int) := hyh
    omega
  obtain ⟨row, hrow⟩ : ∃ row, p.grid.get? p.yptr.toNat = some row :=
    ⟨_, List.get?_eq_get hylen⟩
  refine ⟨?_, ?_, ?_, ?_⟩
  · intro hsm htok
    subst htok
    obtain ⟨q, hq, hstk, hsm'⟩ :=
      move_program_pointer_some
        { p with last_output := "", string_mode := false } row hy0 hrow
    refine ⟨q, ?_, ?_, hstk⟩
    · rw [step_dispatch_string p Token.StringMode ht hsm]
      exact hq
    · rw [hsm']
  · intro hsm c htok
    subst htok
    obtain ⟨q, hq, hstk, hsm'⟩ :=
      move_program_pointer_some
        { p with last_output := "",
                 stack := Int.ofNat c.toNat :: p.stack } row hy0 hrow
    refine ⟨q, ?_, ?_, hstk⟩
    · rw [step_dispatch_string p (Token.Char c) ht hsm]
      exact hq
    · rw [hsm', hsm]
  · intro hsm hne c hc
    obtain ⟨q, hq, hstk, hsm'⟩ :=
      move_program_pointer_some
        { p with last_output := "",
                 stack := Int.ofNat c.toNat :: p.stack } row hy0 hrow
    refine ⟨q, ?_, ?_, hstk⟩
    · rw [step_dispatch_string p t ht hsm,
        perform_string_action_push { p with last_output := "" } t c hc hne]
      exact hq
    · rw [hsm', hsm]
  · intro hsm htok
    subst htok
    obtain ⟨q, hq, hstk, hsm'⟩ :=
      move_program_pointer_some
        { p with last_output := "", string_mode := true } row hy0 hrow
    refine ⟨q, ?_, ?_, hstk⟩
    · rw [step_dispatch_normal p Token.StringMode ht hsm]
      exact hq
    · rw [hsm']

/-- C6 witness: in string mode on the `Add` token (drawn as `+`), a step
pushes `43` (the code of `+`) and stays in string mode. -/
theorem c6_string_mode_semantics_witness :
    ∃ q, step c6WitnessProgram = some q ∧ q.string_mode = true ∧
      q.stack = Int.ofNat ('+'.toNat) :: c6WitnessProgram.stack :=
  (c6_string_mode_semantics c6WitnessProgram Token.Add rfl).2.2.1
    rfl (by decide) '+' rfl

end RustyFungus
